import Mathlib

/-!
Verification of the `xsukax-pygit` repository-acquisition tool
(`src/xsukax-pygit.py`) against its natural-language specification.

The Python source is shallowly embedded below.  Strings are manipulated
through their underlying character lists (`String.data`) with structural
recursion, so every definition evaluates by kernel reduction.  The
filesystem is a finite tree `FS`; every filesystem-touching operation of
the source becomes a state-passing function `... → FS → Except CloneError α × FS`
returning the error outcome together with the resulting filesystem.
Network traffic (the GitHub metadata query and the snapshot download) is
abstracted by a `Network` record supplying the observable results of the
two HTTP helpers.
-/

namespace PyGit

/-- The error taxonomy of the specification (§7).  Each `SystemExit`
site of the source is mapped to the corresponding kind. -/
inductive CloneError where
  | DestinationConflict
  | UnsupportedSource
  | MalformedReference
  | DownloadFailure
  | CorruptArchive
  | UnexpectedLayout
  | SourceNotFound
  | SourceNotADirectory
  | IOFailure
  deriving Repr, DecidableEq

/-! ## Character-list string utilities -/

/-- `beginsWith pre l` : `pre` is an initial segment of `l`. -/
def beginsWith {α : Type} [BEq α] : List α → List α → Bool
  | [], _ => true
  | _ :: _, [] => false
  | a :: as, b :: bs => a == b && beginsWith as bs

/-- `containsSeq needle hay` : `needle` occurs as a contiguous
subsequence of `hay` (Python's `in` on strings). -/
def containsSeq {α : Type} [BEq α] (needle : List α) : List α → Bool
  | [] => beginsWith needle []
  | b :: bs => beginsWith needle (b :: bs) || containsSeq needle bs

/-- ASCII lower-casing of a character code (Python `str.lower` on the
ASCII range used by URLs). -/
def lowerCode (n : Nat) : Nat := if 65 ≤ n ∧ n ≤ 90 then n + 32 else n

/-- Character codes of a string, lower-cased. -/
def lowerCodes (l : List Char) : List Nat := l.map (fun c => lowerCode c.toNat)

/-- Split at the first occurrence of `c`, Python `str.find` + slicing. -/
def splitAtChar (c : Char) : List Char → Option (List Char × List Char)
  | [] => none
  | x :: xs =>
    if x == c then some ([], xs)
    else
      match splitAtChar c xs with
      | some (pre, post) => some (x :: pre, post)
      | none => none

/-- Characters allowed in a URL scheme (`urllib.parse.scheme_chars`). -/
def isSchemeChar (c : Char) : Bool :=
  c.isAlpha || c.isDigit || c == '+' || c == '-' || c == '.'

/-- Take characters up to (excluding) the first occurrence of any stop
character; also return the rest starting at that stop character. -/
def takeUntilAny (stops : List Char) : List Char → List Char × List Char
  | [] => ([], [])
  | c :: cs =>
    if stops.contains c then ([], c :: cs)
    else
      let r := takeUntilAny stops cs
      (c :: r.1, r.2)

/-- Split on every occurrence of `c` (Python `str.split(c)`). -/
def splitOnChar (c : Char) : List Char → List (List Char)
  | [] => [[]]
  | x :: xs =>
    match splitOnChar c xs with
    | [] => [[]]
    | y :: ys => if x == c then [] :: y :: ys else (x :: y) :: ys

/-- Strip leading and trailing occurrences of `c` (Python `str.strip(c)`). -/
def stripChar (c : Char) (l : List Char) : List Char :=
  ((l.dropWhile (fun x => x == c)).reverse.dropWhile (fun x => x == c)).reverse

/-! ## `urllib.parse.urlparse`, restricted to the components the source
reads (`scheme`, `netloc`, `path`).  A scheme is recognised before the
first `:` when it starts with a letter and uses only scheme characters;
a netloc follows a leading `//` and ends at the first `/`, `?` or `#`;
the path is what remains before any query or fragment.  The scheme is
kept in its original case here and lower-cased at the comparison sites
(observably equivalent to CPython, which lower-cases it inside
`urlparse` and compares against lower-case constants). -/

structure UrlParts where
  scheme : String
  netloc : String
  path : String
  deriving Repr, DecidableEq

def urlparse (s : String) : UrlParts :=
  let cs := s.data
  let schemeRest : List Char × List Char :=
    match splitAtChar ':' cs with
    | some (pre, post) =>
      match pre with
      | [] => ([], cs)
      | c0 :: _ => if c0.isAlpha && pre.all isSchemeChar then (pre, post) else ([], cs)
    | none => ([], cs)
  let netlocRest : List Char × List Char :=
    match schemeRest.2 with
    | '/' :: '/' :: r => takeUntilAny ['/', '?', '#'] r
    | r => ([], r)
  let pathCs := (takeUntilAny ['?', '#'] netlocRest.2).1
  { scheme := String.mk schemeRest.1
    netloc := String.mk netlocRest.1
    path := String.mk pathCs }

/-- `is_url` (line 29): the string parses with scheme `http` or `https`. -/
def is_url (s : String) : Bool :=
  let u := urlparse s
  lowerCodes u.scheme.data == lowerCodes "http".data ||
    lowerCodes u.scheme.data == lowerCodes "https".data

/-- The non-empty path segments: `u.path.strip("/").split("/")` filtered
for truthiness (lines 67). -/
def pathSegments (path : String) : List String :=
  ((splitOnChar '/' (stripChar '/' path.data)).filter (fun seg => seg ≠ [])).map
    (fun seg => String.mk seg)

/-- Strip a trailing `.git`: `repo[:-4] if repo.endswith(".git")` (lines 72-73). -/
def stripDotGit (repo : String) : String :=
  let cs := repo.data
  if beginsWith ".git".data.reverse cs.reverse then
    String.mk (cs.take (cs.length - 4))
  else repo

/-- `github_owner_repo` (lines 61-74): rejects URLs whose lower-cased
netloc does not contain `"github.com"` as a substring, then requires at
least two non-empty path segments and returns
(segment 0, segment 1 minus a trailing `.git`). -/
def github_owner_repo (url : String) : Except CloneError (String × String) :=
  let u := urlparse url
  if containsSeq (lowerCodes "github.com".data) (lowerCodes u.netloc.data) = false then
    Except.error CloneError.UnsupportedSource
  else
    match pathSegments u.path with
    | owner :: repo :: _ => Except.ok (owner, stripDotGit repo)
    | _ => Except.error CloneError.MalformedReference

/-! ## Filesystem model

A filesystem is a finite tree; directories carry association lists of
named children (names are unique in a real directory, which the
claim-level theorems assume where it matters).  Paths are component
lists rooted at the tree's root. -/

inductive FS where
  | file (content : List Nat)
  | dir (entries : List (String × FS))

/-- Look up a name in a directory's entry list. -/
def findEntry (es : List (String × FS)) (name : String) : Option FS :=
  match es with
  | [] => none
  | (n, v) :: rest => if n = name then some v else findEntry rest name

/-- Replace the entry with this name, or append it if absent. -/
def setEntry (es : List (String × FS)) (name : String) (node : FS) :
    List (String × FS) :=
  match es with
  | [] => [(name, node)]
  | (n, v) :: rest =>
    if n = name then (name, node) :: rest else (n, v) :: setEntry rest name node

/-- Remove the entry with this name. -/
def eraseEntry (es : List (String × FS)) (name : String) : List (String × FS) :=
  match es with
  | [] => []
  | (n, v) :: rest =>
    if n = name then eraseEntry rest name else (n, v) :: eraseEntry rest name

/-- Follow a path down from a tree node: `Path.exists` / reading a subtree. -/
def lookup : FS → List String → Option FS
  | t, [] => some t
  | FS.file _, _ :: _ => none
  | FS.dir es, n :: rest =>
    match findEntry es n with
    | some c => lookup c rest
    | none => none

/-- `Path.mkdir(parents=True, exist_ok=True)`: create the directory and
any missing ancestors; fails (`none`, an `OSError`) when a path
component exists as a regular file. -/
def mkdirParents : FS → List String → Option FS
  | FS.dir es, [] => some (FS.dir es)
  | FS.file _, [] => none
  | FS.file _, _ :: _ => none
  | FS.dir es, n :: rest =>
    match findEntry es n with
    | some c =>
      match mkdirParents c rest with
      | some c2 => some (FS.dir (setEntry es n c2))
      | none => none
    | none =>
      match mkdirParents (FS.dir []) rest with
      | some c2 => some (FS.dir (setEntry es n c2))
      | none => none

/-- Write `node` at `path`, replacing whatever entry held that name;
fails (`none`) when an ancestor of the target is missing or is a file
(`os.rename` into a nonexistent parent). -/
def setPath : FS → List String → FS → Option FS
  | _, [], node => some node
  | FS.file _, _ :: _, _ => none
  | FS.dir es, n :: rest, node =>
    match rest with
    | [] => some (FS.dir (setEntry es n node))
    | _ :: _ =>
      match findEntry es n with
      | some c =>
        match setPath c rest node with
        | some c2 => some (FS.dir (setEntry es n c2))
        | none => none
      | none => none

/-- `Path.rmdir`: remove the directory at `path`; fails (`none`) unless
the target exists and is an empty directory. -/
def rmdir : FS → List String → Option FS
  | FS.file _, _ => none
  | FS.dir _, [] => none
  | FS.dir es, n :: rest =>
    match rest with
    | [] =>
      match findEntry es n with
      | some (FS.dir []) => some (FS.dir (eraseEntry es n))
      | _ => none
    | _ :: _ =>
      match findEntry es n with
      | some c =>
        match rmdir c rest with
        | some c2 => some (FS.dir (setEntry es n c2))
        | none => none
      | none => none

/-- `shutil.move(str(item), str(target))` for `item` named `name` inside
the scratch root and `target = dest / name` (lines 133-138).  Mirrors
CPython `shutil.move`: when the target exists as a directory the source
is moved *into* it (failing if `target/name` already exists); when the
target exists as a file, a file source replaces it (`os.rename`) while a
directory source fails (the `copytree` fallback refuses an existing
file); otherwise a plain rename.  The scratch directory itself lives
outside the modelled tree, so only the destination side is recorded. -/
def shutil_move (fs : FS) (dest : List String) (name : String) (node : FS) :
    Option FS :=
  match lookup fs (dest ++ [name]) with
  | some (FS.dir _) =>
    match lookup fs (dest ++ [name, name]) with
    | some _ => none
    | none => setPath fs (dest ++ [name, name]) node
  | some (FS.file _) =>
    match node with
    | FS.file _ => setPath fs (dest ++ [name]) node
    | FS.dir _ => none
  | none => setPath fs (dest ++ [name]) node

/-- `shutil.copytree(src_path, dest)` (line 197): fails when the source
is not a directory or the destination already exists; otherwise creates
the destination (and missing parents, `os.makedirs`) and reproduces the
whole source subtree there, with no exclusion filtering. -/
def copytree (fs : FS) (src dest : List String) : Option FS :=
  match lookup fs src with
  | some (FS.dir es) =>
    match lookup fs dest with
    | some _ => none
    | none =>
      match mkdirParents fs dest with
      | some fs1 => setPath fs1 dest (FS.dir es)
      | none => none
  | _ => none

/-! ## Destination guard, archive unpacker, clone operations -/

/-- `ensure_empty_dir` (lines 38-49): an existing regular file or
non-empty directory is a destination conflict; a missing destination is
created with parents; creation failure is an I/O failure. -/
def ensure_empty_dir (fs : FS) (dest : List String) : Except CloneError FS :=
  match lookup fs dest with
  | some (FS.file _) => Except.error CloneError.DestinationConflict
  | some (FS.dir es) =>
    if es.isEmpty then Except.ok fs else Except.error CloneError.DestinationConflict
  | none =>
    match mkdirParents fs dest with
    | some fs1 => Except.ok fs1
    | none => Except.error CloneError.IOFailure

/-- The downloaded payload as the archive unpacker observes it: either
not a valid ZIP (`zipfile.BadZipFile`) or the entry list the scratch
directory holds after `zf.extractall(tmpdir)`. -/
inductive ZipData where
  | bad
  | ok (entries : List (String × FS))

def isDirFS : FS → Bool
  | FS.dir _ => true
  | FS.file _ => false

def childrenOf : FS → List (String × FS)
  | FS.dir es => es
  | FS.file _ => []

/-- The move loop of lines 133-138: each child of the single root is
moved into the destination in order; a failing move aborts with the
catch-all of line 141-142 (`fatal: failed to extract archive`). -/
def moveChildren : List (String × FS) → List String → FS →
    Except CloneError Unit × FS
  | [], _, fs => (Except.ok (), fs)
  | (n, node) :: rest, dest, fs =>
    match shutil_move fs dest n node with
    | some fs1 => moveChildren rest dest fs1
    | none => (Except.error CloneError.IOFailure, fs)

/-- `extract_zip_to` (lines 117-142).  The scratch directory is a
`tempfile.TemporaryDirectory` outside the modelled tree, removed on
every exit path, so only the destination side of each move is recorded.
Top-level entries of the scratch directory that are directories are
counted; unless exactly one exists the extraction aborts before
touching the destination. -/
def extract_zip_to (data : ZipData) (dest : List String) (fs : FS) :
    Except CloneError Unit × FS :=
  match data with
  | ZipData.bad => (Except.error CloneError.CorruptArchive, fs)
  | ZipData.ok entries =>
    match entries.filter (fun e => isDirFS e.2) with
    | [root] => moveChildren (childrenOf root.2) dest fs
    | _ => (Except.error CloneError.UnexpectedLayout, fs)

/-- The observable results of the two HTTP helpers: `defaultBranch`
models `github_default_branch`'s metadata query (`none` covers a
network/parse failure, a missing field, and an empty — falsy — branch
name), and `download b` models `download_github_zip(owner, repo, b)`
(`none` is a raised download error). -/
structure Network where
  defaultBranch : Option String
  download : String → Option ZipData

/-- `github_default_branch` (lines 97-107): the metadata answer when one
is present and truthy, else the literal `"main"`. -/
def github_default_branch (net : Network) : String :=
  match net.defaultBranch with
  | some b => if b.isEmpty then "main" else b
  | none => "main"

/-- The fallback candidate of line 162:
`"master" if branch != "master" else "main"`. -/
def fallback_branch (branch : String) : String :=
  if branch ≠ "master" then "master" else "main"

/-- `clone_github` (lines 145-171).  `Path.resolve` is ignored: paths
are already abstract component lists.  On success the branch actually
used (the one reported by line 171) is returned. -/
def clone_github (net : Network) (url : String) (destOpt : Option (List String))
    (fs : FS) : Except CloneError String × FS :=
  match github_owner_repo url with
  | Except.error e => (Except.error e, fs)
  | Except.ok (_owner, repo) =>
    let dest := destOpt.getD [repo]
    match ensure_empty_dir fs dest with
    | Except.error e => (Except.error e, fs)
    | Except.ok fs1 =>
      let branch := github_default_branch net
      match net.download branch with
      | some data =>
        match extract_zip_to data dest fs1 with
        | (Except.ok _, fs2) => (Except.ok branch, fs2)
        | (Except.error e, fs2) => (Except.error e, fs2)
      | none =>
        match net.download (fallback_branch branch) with
        | some data =>
          match extract_zip_to data dest fs1 with
          | (Except.ok _, fs2) => (Except.ok (fallback_branch branch), fs2)
          | (Except.error e, fs2) => (Except.error e, fs2)
        | none => (Except.error CloneError.DownloadFailure, fs1)

/-- `clone_local` (lines 174-200).  `expanduser`/`resolve` are ignored
(abstract paths); the destination defaults to the source's final
component (`Path(src_path.name)`). -/
def clone_local (fs : FS) (src : List String) (destOpt : Option (List String)) :
    Except CloneError Unit × FS :=
  match lookup fs src with
  | none => (Except.error CloneError.SourceNotFound, fs)
  | some (FS.file _) => (Except.error CloneError.SourceNotADirectory, fs)
  | some (FS.dir _) =>
    let dest := destOpt.getD (match src.getLast? with | some n => [n] | none => [])
    match lookup fs dest with
    | some (FS.file _) => (Except.error CloneError.DestinationConflict, fs)
    | some (FS.dir es) =>
      if es.isEmpty then
        match rmdir fs dest with
        | some fs1 =>
          match copytree fs1 src dest with
          | some fs2 => (Except.ok (), fs2)
          | none => (Except.error CloneError.IOFailure, fs1)
        | none => (Except.error CloneError.IOFailure, fs)
      else (Except.error CloneError.DestinationConflict, fs)
    | none =>
      match copytree fs src dest with
      | some fs2 => (Except.ok (), fs2)
      | none => (Except.error CloneError.IOFailure, fs)

/-! ## CLI layer (`main`, lines 203-238)

`argparse` is standard-library behaviour, modelled for positional-only
invocations (option flags such as `-h`, which argparse intercepts with
its own exit paths, are outside this model): with no arguments the
subcommand is absent (`args.command is None`); a first token other than
`clone` is an *invalid choice*, which `argparse` rejects itself — it
prints a usage error to stderr and calls `sys.exit(2)` before
`parse_args` returns, so the `else` branch of lines 236-238 is
unreachable; `clone` requires one source argument and accepts one
optional destination, any other arity again being an argparse error
(exit status 2). -/

inductive ArgOutcome where
  | noCommand
  | cloneCmd (source : String) (destination : Option String)
  | argError
  deriving Repr, DecidableEq

def parse_args (argv : List String) : ArgOutcome :=
  match argv with
  | [] => ArgOutcome.noCommand
  | cmd :: rest =>
    if cmd = "clone" then
      match rest with
      | [src] => ArgOutcome.cloneCmd src none
      | [src, dst] => ArgOutcome.cloneCmd src (some dst)
      | _ => ArgOutcome.argError
    else ArgOutcome.argError

/-- What `main` does before dispatching to a clone routine: exit with a
status (recording whether the full help text was printed), or run the
clone subcommand. -/
inductive MainResult where
  | exitWith (code : Nat) (printedHelp : Bool)
  | runClone (source : String) (destination : Option String)
  deriving Repr, DecidableEq

def mainStep (argv : List String) : MainResult :=
  match parse_args argv with
  | ArgOutcome.argError => MainResult.exitWith 2 false
  | ArgOutcome.noCommand => MainResult.exitWith 1 true
  | ArgOutcome.cloneCmd s d => MainResult.runClone s d

/-! ## Lemmas about the filesystem primitives -/

theorem findEntry_setEntry_self (es : List (String × FS)) (n : String) (v : FS) :
    findEntry (setEntry es n v) n = some v := by
  induction es with
  | nil => simp [setEntry, findEntry]
  | cons e rest ih =>
    obtain ⟨m, w⟩ := e
    by_cases h : m = n
    · subst h; simp [setEntry, findEntry]
    · simp [setEntry, findEntry, h, ih]

theorem findEntry_setEntry_ne (es : List (String × FS)) (n m : String) (v : FS)
    (h : m ≠ n) : findEntry (setEntry es n v) m = findEntry es m := by
  induction es with
  | nil => simp [setEntry, findEntry, Ne.symm h]
  | cons e rest ih =>
    obtain ⟨k, w⟩ := e
    by_cases hk : k = n
    · subst hk
      simp [setEntry, findEntry, Ne.symm h]
    · simp [setEntry, findEntry, hk, ih]

theorem findEntry_eraseEntry_self (es : List (String × FS)) (n : String) :
    findEntry (eraseEntry es n) n = none := by
  induction es with
  | nil => simp [eraseEntry, findEntry]
  | cons e rest ih =>
    obtain ⟨k, w⟩ := e
    by_cases hk : k = n
    · simp [eraseEntry, hk, ih]
    · simp [eraseEntry, findEntry, hk, ih]

theorem findEntry_eraseEntry_ne (es : List (String × FS)) (n m : String)
    (h : m ≠ n) : findEntry (eraseEntry es n) m = findEntry es m := by
  induction es with
  | nil => simp [eraseEntry]
  | cons e rest ih =>
    obtain ⟨k, w⟩ := e
    by_cases hk : k = n
    · subst hk
      simp [eraseEntry, findEntry, Ne.symm h, ih]
    · simp [eraseEntry, findEntry, hk, ih]

theorem setEntry_of_findEntry_none (es : List (String × FS)) (n : String) (v : FS)
    (h : findEntry es n = none) : setEntry es n v = es ++ [(n, v)] := by
  induction es with
  | nil => simp [setEntry]
  | cons e rest ih =>
    obtain ⟨k, w⟩ := e
    by_cases hk : k = n
    · simp [findEntry, hk] at h
    · have h2 : findEntry rest n = none := by simpa [findEntry, hk] using h
      simp [setEntry, hk, ih h2]

theorem findEntry_append_of_none (es1 es2 : List (String × FS)) (n : String)
    (h : findEntry es1 n = none) :
    findEntry (es1 ++ es2) n = findEntry es2 n := by
  induction es1 with
  | nil => simp
  | cons e rest ih =>
    obtain ⟨k, w⟩ := e
    by_cases hk : k = n
    · simp [findEntry, hk] at h
    · have h2 : findEntry rest n = none := by simpa [findEntry, hk] using h
      simpa [findEntry, hk] using ih h2

theorem lookup_append (p q : List String) (t : FS) :
    lookup t (p ++ q) = (lookup t p).bind (fun s => lookup s q) := by
  induction p generalizing t with
  | nil => simp [lookup]
  | cons d rest ih =>
    cases t with
    | file c => simp [lookup]
    | dir es =>
      simp only [List.cons_append, lookup]
      cases hf : findEntry es d with
      | none => simp
      | some c => simpa using ih c

theorem setPath_append_one (dest : List String) (fs : FS)
    (es : List (String × FS)) (n : String) (node : FS)
    (h : lookup fs dest = some (FS.dir es)) :
    ∃ fs2, setPath fs (dest ++ [n]) node = some fs2 ∧
      lookup fs2 dest = some (FS.dir (setEntry es n node)) := by
  induction dest generalizing fs es with
  | nil =>
    simp only [lookup, Option.some.injEq] at h
    subst h
    exact ⟨FS.dir (setEntry es n node), rfl, rfl⟩
  | cons d rest ih =>
    cases fs with
    | file c => simp [lookup] at h
    | dir es0 =>
      simp only [lookup] at h
      cases hf : findEntry es0 d with
      | none => rw [hf] at h; simp at h
      | some c =>
        rw [hf] at h
        obtain ⟨c2, hset, hlook⟩ := ih c es h
        refine ⟨FS.dir (setEntry es0 d c2), ?_, ?_⟩
        · have hx : ∃ a as, rest ++ [n] = a :: as := by
            cases hq : rest ++ [n] with
            | nil => exact absurd hq (by simp)
            | cons a as => exact ⟨a, as, rfl⟩
          obtain ⟨a, as, hr⟩ := hx
          show setPath (FS.dir es0) (d :: (rest ++ [n])) node = _
          rw [hr]
          simp only [setPath, hf]
          rw [← hr, hset]
        · simp [lookup, findEntry_setEntry_self, hlook]

theorem moveChildren_ok (children : List (String × FS)) (dest : List String)
    (fs : FS) (acc : List (String × FS))
    (hacc : lookup fs dest = some (FS.dir acc))
    (hnd : (children.map Prod.fst).Nodup)
    (hfresh : ∀ n, n ∈ children.map Prod.fst → findEntry acc n = none) :
    ∃ fs2, moveChildren children dest fs = (Except.ok (), fs2) ∧
      lookup fs2 dest = some (FS.dir (acc ++ children)) := by
  induction children generalizing fs acc with
  | nil => exact ⟨fs, rfl, by simpa using hacc⟩
  | cons e rest ih =>
    obtain ⟨n, node⟩ := e
    have hn : findEntry acc n = none := hfresh n (by simp)
    have hl1 : lookup fs (dest ++ [n]) = none := by
      rw [lookup_append, hacc]
      simp [lookup, hn]
    obtain ⟨fs1, hset, hlook⟩ := setPath_append_one dest fs acc n node hacc
    have hmove : shutil_move fs dest n node = some fs1 := by
      simp only [shutil_move, hl1]
      exact hset
    have hacc1 : lookup fs1 dest = some (FS.dir (acc ++ [(n, node)])) := by
      rw [hlook, setEntry_of_findEntry_none acc n node hn]
    have hnil : n ∉ rest.map Prod.fst ∧ (rest.map Prod.fst).Nodup := by
      simpa [List.nodup_cons] using hnd
    have hfresh1 : ∀ m, m ∈ rest.map Prod.fst →
        findEntry (acc ++ [(n, node)]) m = none := by
      intro m hm
      have hmn : m ≠ n := fun hh => hnil.1 (hh ▸ hm)
      rw [findEntry_append_of_none _ _ _ (hfresh m (by simp [hm]))]
      simp [findEntry, Ne.symm hmn]
    obtain ⟨fs2, hrun, hfin⟩ := ih fs1 (acc ++ [(n, node)]) hacc1 hnil.2 hfresh1
    refine ⟨fs2, ?_, ?_⟩
    · simp only [moveChildren, hmove]
      exact hrun
    · simpa [List.append_assoc] using hfin

theorem mkdirParents_lookup (dest : List String) (fs fs1 : FS)
    (hnone : lookup fs dest = none)
    (hmk : mkdirParents fs dest = some fs1) :
    lookup fs1 dest = some (FS.dir []) := by
  induction dest generalizing fs fs1 with
  | nil => simp [lookup] at hnone
  | cons d rest ih =>
    cases fs with
    | file c => simp [mkdirParents] at hmk
    | dir es =>
      cases hf : findEntry es d with
      | some child =>
        have hrest : lookup child rest = none := by
          simpa only [lookup, hf] using hnone
        cases hm2 : mkdirParents child rest with
        | none => simp [mkdirParents, hf, hm2] at hmk
        | some child2 =>
          simp only [mkdirParents, hf, hm2, Option.some.injEq] at hmk
          subst hmk
          simp [lookup, findEntry_setEntry_self, ih child child2 hrest hm2]
      | none =>
        cases hm2 : mkdirParents (FS.dir []) rest with
        | none => simp [mkdirParents, hf, hm2] at hmk
        | some child2 =>
          simp only [mkdirParents, hf, hm2, Option.some.injEq] at hmk
          subst hmk
          have hchild : lookup child2 rest = some (FS.dir []) := by
            cases rest with
            | nil =>
              simp only [mkdirParents, Option.some.injEq] at hm2
              subst hm2
              rfl
            | cons r rs =>
              exact ih (FS.dir []) child2 (by simp [lookup, findEntry]) hm2
          simp [lookup, findEntry_setEntry_self, hchild]

/-- Removing an existing empty directory and recreating it with a given
subtree (the `rmdir`-then-`copytree` dance of `clone_local`): all three
steps succeed, the removal leaves every path unrelated to `dest`
untouched, and afterwards `dest` holds exactly the given subtree. -/
theorem rmdir_mkdir_set :
    ∀ (dest : List String) (fs node : FS), dest ≠ [] →
      lookup fs dest = some (FS.dir []) →
      ∃ fs1 fs2 fs3,
        rmdir fs dest = some fs1 ∧
        lookup fs1 dest = none ∧
        (∀ p, beginsWith dest p = false → beginsWith p dest = false →
          lookup fs1 p = lookup fs p) ∧
        mkdirParents fs1 dest = some fs2 ∧
        setPath fs2 dest node = some fs3 ∧
        lookup fs3 dest = some node := by
  intro dest
  induction dest with
  | nil => intro fs node hne h; exact absurd rfl hne
  | cons d rest ih =>
    intro fs node hne h
    cases fs with
    | file c => simp [lookup] at h
    | dir es0 =>
      simp only [lookup] at h
      cases hf : findEntry es0 d with
      | none => rw [hf] at h; simp at h
      | some child =>
        rw [hf] at h
        cases rest with
        | nil =>
          have h2 : child = FS.dir [] := by simpa [lookup] using h
          subst h2
          refine ⟨FS.dir (eraseEntry es0 d),
            FS.dir (setEntry (eraseEntry es0 d) d (FS.dir [])),
            FS.dir (setEntry (setEntry (eraseEntry es0 d) d (FS.dir [])) d node),
            ?_, ?_, ?_, ?_, ?_, ?_⟩
          · simp [rmdir, hf]
          · simp [lookup, findEntry_eraseEntry_self]
          · intro p hp1 hp2
            cases p with
            | nil => simp [beginsWith] at hp2
            | cons q t =>
              have hq : q ≠ d := by
                intro hdq
                subst hdq
                simp [beginsWith] at hp1
              simp only [lookup, findEntry_eraseEntry_ne es0 d q hq]
          · simp [mkdirParents, findEntry_eraseEntry_self]
          · simp [setPath]
          · simp [lookup, findEntry_setEntry_self]
        | cons r0 rs =>
          obtain ⟨c1, c2, c3, hrm, hl1, hfr, hmk, hsp, hl3⟩ :=
            ih child node (by simp) h
          refine ⟨FS.dir (setEntry es0 d c1),
            FS.dir (setEntry (setEntry es0 d c1) d c2),
            FS.dir (setEntry (setEntry (setEntry es0 d c1) d c2) d c3),
            ?_, ?_, ?_, ?_, ?_, ?_⟩
          · simp [rmdir, hf, hrm]
          · simp [lookup, findEntry_setEntry_self, hl1]
          · intro p hp1 hp2
            cases p with
            | nil => simp [beginsWith] at hp2
            | cons q t =>
              by_cases hq : q = d
              · subst hq
                have hp1a : beginsWith (r0 :: rs) t = false := by
                  simpa [beginsWith] using hp1
                have hp2a : beginsWith t (r0 :: rs) = false := by
                  simpa [beginsWith] using hp2
                simp only [lookup, findEntry_setEntry_self, hf]
                exact hfr t hp1a hp2a
              · simp only [lookup, findEntry_setEntry_ne es0 d q c1 hq]
          · simp [mkdirParents, findEntry_setEntry_self, hmk]
          · simp [setPath, findEntry_setEntry_self, hsp]
          · simp [lookup, findEntry_setEntry_self, hl3]

/-! ## Claims -/

/-- The destination states the spec calls a conflict: an existing
regular file, or an existing non-empty directory. -/
def destConflicts (fs : FS) (dest : List String) : Prop :=
  (∃ c, lookup fs dest = some (FS.file c)) ∨
  (∃ e es, lookup fs dest = some (FS.dir (e :: es)))

/-- C1: every clone attempt — remote (with a parseable GitHub URL) or
local (with an existing directory source) — whose destination exists as
a regular file or as a non-empty directory fails with
`DestinationConflict`, and the filesystem is returned entirely
unchanged: the failure happens before any write. -/
theorem c1_dest_conflict (net : Network) (url : String) (o r : String)
    (fs : FS) (src dest : List String) (es0 : List (String × FS))
    (hurl : github_owner_repo url = Except.ok (o, r))
    (hsrc : lookup fs src = some (FS.dir es0))
    (hc : destConflicts fs dest) :
    clone_github net url (some dest) fs =
      (Except.error CloneError.DestinationConflict, fs) ∧
    clone_local fs src (some dest) =
      (Except.error CloneError.DestinationConflict, fs) := by
  have hensure : ensure_empty_dir fs dest =
      Except.error CloneError.DestinationConflict := by
    rcases hc with ⟨c, h⟩ | ⟨e, es, h⟩
    · simp [ensure_empty_dir, h]
    · simp [ensure_empty_dir, h]
  constructor
  · simp [clone_github, hurl, hensure]
  · rcases hc with ⟨c, h⟩ | ⟨e, es, h⟩
    · simp [clone_local, hsrc, h]
    · simp [clone_local, hsrc, h]

/-- Witness for C1 at a concrete filesystem whose destination `d` is a
regular file. -/
theorem c1_witness :
    clone_github ⟨none, fun _ => none⟩ "https://github.com/a/b" (some ["d"])
        (FS.dir [("d", FS.file [0]), ("s", FS.dir [("x", FS.file [1])])]) =
      (Except.error CloneError.DestinationConflict,
        FS.dir [("d", FS.file [0]), ("s", FS.dir [("x", FS.file [1])])]) ∧
    clone_local
        (FS.dir [("d", FS.file [0]), ("s", FS.dir [("x", FS.file [1])])])
        ["s"] (some ["d"]) =
      (Except.error CloneError.DestinationConflict,
        FS.dir [("d", FS.file [0]), ("s", FS.dir [("x", FS.file [1])])]) :=
  c1_dest_conflict ⟨none, fun _ => none⟩ "https://github.com/a/b" "a" "b"
    (FS.dir [("d", FS.file [0]), ("s", FS.dir [("x", FS.file [1])])])
    ["s"] ["d"] [("x", FS.file [1])] rfl rfl (Or.inl ⟨[0], rfl⟩)

/-- C2: when the extracted scratch directory holds a number of top-level
directory entries different from one, `extract_zip_to` fails with
`UnexpectedLayout` and the filesystem — in particular the destination —
is returned exactly as it was. -/
theorem c2_unexpected_layout (entries : List (String × FS))
    (dest : List String) (fs : FS)
    (h : (entries.filter (fun e => isDirFS e.2)).length ≠ 1) :
    extract_zip_to (ZipData.ok entries) dest fs =
      (Except.error CloneError.UnexpectedLayout, fs) := by
  rcases hr : entries.filter (fun e => isDirFS e.2) with _ | ⟨a, _ | ⟨b, l⟩⟩
  · simp [extract_zip_to, hr]
  · exact absurd (by simp [hr]) h
  · simp [extract_zip_to, hr]

/-- Witness for C2: an archive with zero top-level directories. -/
theorem c2_witness :
    extract_zip_to (ZipData.ok [("README", FS.file [82])]) ["d"]
        (FS.dir [("d", FS.dir [("keep", FS.file [9])])]) =
      (Except.error CloneError.UnexpectedLayout,
        FS.dir [("d", FS.dir [("keep", FS.file [9])])]) :=
  c2_unexpected_layout [("README", FS.file [82])] ["d"]
    (FS.dir [("d", FS.dir [("keep", FS.file [9])])]) (by decide)

/-- C3 counterexample: the source tests `"github.com" in netloc.lower()`
— substring containment, not host equality — so the URL
`https://mygithub.common/a/b`, whose host is `mygithub.common` and not
`github.com`, is accepted instead of failing with `UnsupportedSource`. -/
theorem c3_counterexample :
    (urlparse "https://mygithub.common/a/b").netloc = "mygithub.common" ∧
    github_owner_repo "https://mygithub.common/a/b" = Except.ok ("a", "b") :=
  ⟨rfl, rfl⟩

/-- C3 amended: `github_owner_repo` fails with `UnsupportedSource`
exactly when the lower-cased netloc of the URL does not contain
`"github.com"` as a substring (so it accepts any URL whose lower-cased
netloc merely contains that substring, not only host `github.com`). -/
theorem c3_substring_acceptance (url : String) :
    github_owner_repo url = Except.error CloneError.UnsupportedSource ↔
    containsSeq (lowerCodes "github.com".data)
      (lowerCodes (urlparse url).netloc.data) = false := by
  by_cases h : containsSeq (lowerCodes "github.com".data)
      (lowerCodes (urlparse url).netloc.data) = false
  · simp [github_owner_repo, h]
  · have h2 : containsSeq (lowerCodes "github.com".data)
        (lowerCodes (urlparse url).netloc.data) = true := by
      simpa using h
    simp only [github_owner_repo, h2]
    rcases hs : pathSegments (urlparse url).path with _ | ⟨a, _ | ⟨b, l⟩⟩ <;>
      simp [h2]

/-- C4: after the branch is resolved, the snapshot is fetched for it;
on failure exactly one retry happens, with the fallback branch
(`"master"` unless the resolved branch is already `"master"`, else
`"main"`); two failures give `DownloadFailure`; on success the branch
the clone reports is the branch whose fetch succeeded.  The final
conjunct confirms the fetch consults no branch besides those two. -/
theorem c4_branch_fallback (net : Network) (url o r : String)
    (dest : List String) (fs fs1 : FS)
    (hurl : github_owner_repo url = Except.ok (o, r))
    (hdest : ensure_empty_dir fs dest = Except.ok fs1) :
    (net.download (github_default_branch net) = none →
      net.download (fallback_branch (github_default_branch net)) = none →
      clone_github net url (some dest) fs =
        (Except.error CloneError.DownloadFailure, fs1)) ∧
    (∀ z fs2, net.download (github_default_branch net) = none →
      net.download (fallback_branch (github_default_branch net)) = some z →
      extract_zip_to z dest fs1 = (Except.ok (), fs2) →
      clone_github net url (some dest) fs =
        (Except.ok (fallback_branch (github_default_branch net)), fs2)) ∧
    (∀ z fs2, net.download (github_default_branch net) = some z →
      extract_zip_to z dest fs1 = (Except.ok (), fs2) →
      clone_github net url (some dest) fs =
        (Except.ok (github_default_branch net), fs2)) ∧
    (∀ net2 : Network, net2.defaultBranch = net.defaultBranch →
      net2.download (github_default_branch net) =
        net.download (github_default_branch net) →
      net2.download (fallback_branch (github_default_branch net)) =
        net.download (fallback_branch (github_default_branch net)) →
      clone_github net2 url (some dest) fs = clone_github net url (some dest) fs) := by
  refine ⟨?_, ?_, ?_, ?_⟩
  · intro h1 h2
    simp [clone_github, hurl, hdest, h1, h2]
  · intro z fs2 h1 h2 h3
    simp [clone_github, hurl, hdest, h1, h2, h3]
  · intro z fs2 h1 h2
    simp [clone_github, hurl, hdest, h1, h2]
  · intro net2 hb hd1 hd2
    have hbr : github_default_branch net2 = github_default_branch net := by
      simp [github_default_branch, hb]
    simp only [clone_github, hurl, hbr, hd1, hd2]

/-- Witness for C4: metadata resolves branch `dev`, whose fetch fails;
the single retry with fallback `master` succeeds, and the clone reports
`master`. -/
theorem c4_witness :
    clone_github
        ⟨some "dev", fun s => if s = "master"
          then some (ZipData.ok
            [("repo-master", FS.dir [("a.txt", FS.file [104])])])
          else none⟩
        "https://github.com/a/b" (some ["d"]) (FS.dir []) =
      (Except.ok "master", FS.dir [("d", FS.dir [("a.txt", FS.file [104])])]) :=
  ((c4_branch_fallback
      ⟨some "dev", fun s => if s = "master"
        then some (ZipData.ok
          [("repo-master", FS.dir [("a.txt", FS.file [104])])])
        else none⟩
      "https://github.com/a/b" "a" "b" ["d"] (FS.dir [])
      (FS.dir [("d", FS.dir [])]) rfl rfl).2.1)
    (ZipData.ok [("repo-master", FS.dir [("a.txt", FS.file [104])])])
    (FS.dir [("d", FS.dir [("a.txt", FS.file [104])])]) rfl rfl rfl

/-- C5 counterexample: the move loop moves *every* child of the wrapping
directory, so when the wrapping directory `r` itself contains a child
named `r`, extraction succeeds and the destination afterwards does
contain an entry bearing the wrapping directory's name — refuting the
claim that the wrapping name never appears in the destination. -/
theorem c5_counterexample :
    extract_zip_to
        (ZipData.ok [("r", FS.dir [("r", FS.file [7])])]) ["d"]
        (FS.dir [("d", FS.dir [])]) =
      (Except.ok (), FS.dir [("d", FS.dir [("r", FS.file [7])])]) ∧
    lookup (FS.dir [("d", FS.dir [("r", FS.file [7])])]) ["d", "r"] =
      some (FS.file [7]) :=
  ⟨rfl, rfl⟩

/-- C5 amended: for an archive whose scratch directory has exactly one
top-level directory entry, extraction into an (initially empty)
destination succeeds and the destination's entries afterwards are
exactly the wrapping directory's children — relative paths and byte
content preserved, the wrapping directory itself not recreated; its
name can therefore appear only when one of its own children bears it. -/
theorem c5_extract_strips_root (entries : List (String × FS)) (rn : String)
    (children : List (String × FS)) (dest : List String) (fs : FS)
    (hroots : entries.filter (fun e => isDirFS e.2) = [(rn, FS.dir children)])
    (hnd : (children.map Prod.fst).Nodup)
    (hdest : lookup fs dest = some (FS.dir [])) :
    ∃ fs2, extract_zip_to (ZipData.ok entries) dest fs = (Except.ok (), fs2) ∧
      lookup fs2 dest = some (FS.dir children) := by
  obtain ⟨fs2, hrun, hfin⟩ :=
    moveChildren_ok children dest fs [] hdest hnd (fun n _ => rfl)
  exact ⟨fs2, by simpa [extract_zip_to, hroots, childrenOf] using hrun,
    by simpa using hfin⟩

/-- Witness for C5 (amended) at the spec's own example: a single root
`repo-main/` holding `a.txt` and `sub/b.txt`. -/
theorem c5_witness :
    ∃ fs2, extract_zip_to
        (ZipData.ok [("repo-main", FS.dir
          [("a.txt", FS.file [97]),
           ("sub", FS.dir [("b.txt", FS.file [98])])])])
        ["d"] (FS.dir [("d", FS.dir [])]) = (Except.ok (), fs2) ∧
      lookup fs2 ["d"] = some (FS.dir
        [("a.txt", FS.file [97]),
         ("sub", FS.dir [("b.txt", FS.file [98])])]) :=
  c5_extract_strips_root
    [("repo-main", FS.dir
      [("a.txt", FS.file [97]), ("sub", FS.dir [("b.txt", FS.file [98])])])]
    "repo-main"
    [("a.txt", FS.file [97]), ("sub", FS.dir [("b.txt", FS.file [98])])]
    ["d"] (FS.dir [("d", FS.dir [])]) rfl (by decide) rfl

/-- C6: when the netloc check passes, `github_owner_repo` yields
owner = first non-empty path segment and repo = second non-empty path
segment with a trailing `.git` stripped; with fewer than two non-empty
segments it fails with `MalformedReference`. -/
theorem c6_owner_repo (url : String)
    (hacc : containsSeq (lowerCodes "github.com".data)
      (lowerCodes (urlparse url).netloc.data) = true) :
    ((pathSegments (urlparse url).path).length < 2 →
      github_owner_repo url = Except.error CloneError.MalformedReference) ∧
    (∀ o r rest, pathSegments (urlparse url).path = o :: r :: rest →
      github_owner_repo url = Except.ok (o, stripDotGit r)) := by
  constructor
  · intro hlen
    rcases hs : pathSegments (urlparse url).path with _ | ⟨a, _ | ⟨b, l⟩⟩
    · simp [github_owner_repo, hacc, hs]
    · simp [github_owner_repo, hacc, hs]
    · rw [hs] at hlen
      simp only [List.length_cons] at hlen
      omega
  · intro o r rest hs
    simp [github_owner_repo, hacc, hs]

/-- Witness for C6 at the spec's examples: `.git` suffix stripped on
`https://github.com/alice/tools.git`, and a single-segment URL fails
with `MalformedReference`. -/
theorem c6_witness :
    github_owner_repo "https://github.com/alice/tools.git" =
      Except.ok ("alice", "tools") ∧
    github_owner_repo "https://github.com/alice" =
      Except.error CloneError.MalformedReference :=
  ⟨(c6_owner_repo "https://github.com/alice/tools.git" rfl).2
      "alice" "tools.git" [] rfl,
    (c6_owner_repo "https://github.com/alice" rfl).1 (by decide)⟩

/-- C7 counterexample: invoking the program with the unrecognized
command `foo` does not print the help and exit with code 1: `argparse`
rejects the invalid choice itself, printing a usage error and exiting
with status 2 (the `else` help branch of `main` is unreachable). -/
theorem c7_counterexample :
    mainStep ["foo"] = MainResult.exitWith 2 false ∧
    MainResult.exitWith 2 false ≠ MainResult.exitWith 1 true :=
  ⟨rfl, by decide⟩

/-- C7 amended: with no subcommand the program prints the usage help
and exits with code 1; with an unrecognized (non-flag) command,
`argparse` itself rejects the invalid choice and the process exits with
code 2 without printing the full help. -/
theorem c7_cli_exits (c : String) (rest : List String) (hne : c ≠ "clone") :
    mainStep [] = MainResult.exitWith 1 true ∧
    mainStep (c :: rest) = MainResult.exitWith 2 false := by
  exact ⟨rfl, by simp [mainStep, parse_args, hne]⟩

/-- Witness for C7 (amended) at the concrete command `foo`. -/
theorem c7_witness :
    mainStep [] = MainResult.exitWith 1 true ∧
    mainStep ["foo"] = MainResult.exitWith 2 false :=
  c7_cli_exits "foo" [] (by decide)

/-- C8: a local clone whose destination exists as an empty directory
(and is path-disjoint from the source) removes that directory, then
`copytree` reproduces the entire source tree — every entry, including
any version-control metadata subdirectory, with no exclusion filtering
— verbatim at the destination. -/
theorem c8_local_copy (fs : FS) (src dest : List String)
    (es : List (String × FS))
    (hsrc : lookup fs src = some (FS.dir es))
    (hdest : lookup fs dest = some (FS.dir []))
    (hne : dest ≠ [])
    (h1 : beginsWith src dest = false)
    (h2 : beginsWith dest src = false) :
    ∃ fs2, clone_local fs src (some dest) = (Except.ok (), fs2) ∧
      lookup fs2 dest = some (FS.dir es) := by
  obtain ⟨g1, g2, g3, hrm, hl1, hfr, hmk, hsp, hl3⟩ :=
    rmdir_mkdir_set dest fs (FS.dir es) hne hdest
  have hsrc1 : lookup g1 src = some (FS.dir es) := by
    rw [hfr src h2 h1]; exact hsrc
  have hcopy : copytree g1 src dest = some g3 := by
    simp [copytree, hsrc1, hl1, hmk, hsp]
  refine ⟨g3, ?_, hl3⟩
  simp [clone_local, hsrc, hdest, hrm, hcopy]

/-- Witness for C8: the source contains a hidden `.git` subdirectory,
reproduced verbatim in the (previously empty) destination. -/
theorem c8_witness :
    ∃ fs2, clone_local
        (FS.dir [("s", FS.dir
          [(".git", FS.dir [("HEAD", FS.file [114])]),
           ("f", FS.file [42])]), ("d", FS.dir [])])
        ["s"] (some ["d"]) = (Except.ok (), fs2) ∧
      lookup fs2 ["d"] = some (FS.dir
        [(".git", FS.dir [("HEAD", FS.file [114])]), ("f", FS.file [42])]) :=
  c8_local_copy
    (FS.dir [("s", FS.dir
      [(".git", FS.dir [("HEAD", FS.file [114])]), ("f", FS.file [42])]),
      ("d", FS.dir [])])
    ["s"] ["d"]
    [(".git", FS.dir [("HEAD", FS.file [114])]), ("f", FS.file [42])]
    rfl rfl (by decide) rfl rfl

/-- C9: when the destination of a remote clone does not previously
exist and both snapshot fetches fail, the clone fails with
`DownloadFailure`, yet the destination directory created by the guard
remains on disk as an empty directory — creation is not rolled back. -/
theorem c9_dest_left_behind (net : Network) (url o r : String)
    (dest : List String) (fs fs1 : FS)
    (hurl : github_owner_repo url = Except.ok (o, r))
    (hnone : lookup fs dest = none)
    (hmk : mkdirParents fs dest = some fs1)
    (hfail1 : net.download (github_default_branch net) = none)
    (hfail2 : net.download (fallback_branch (github_default_branch net)) = none) :
    clone_github net url (some dest) fs =
      (Except.error CloneError.DownloadFailure, fs1) ∧
    lookup fs1 dest = some (FS.dir []) := by
  have hensure : ensure_empty_dir fs dest = Except.ok fs1 := by
    simp [ensure_empty_dir, hnone, hmk]
  exact ⟨by simp [clone_github, hurl, hensure, hfail1, hfail2],
    mkdirParents_lookup dest fs fs1 hnone hmk⟩

/-- Witness for C9: an initially empty root, destination `d`, and a
network on which every download fails. -/
theorem c9_witness :
    clone_github ⟨none, fun _ => none⟩ "https://github.com/o/rp" (some ["d"])
        (FS.dir []) =
      (Except.error CloneError.DownloadFailure, FS.dir [("d", FS.dir [])]) ∧
    lookup (FS.dir [("d", FS.dir [])]) ["d"] = some (FS.dir []) :=
  c9_dest_left_behind ⟨none, fun _ => none⟩ "https://github.com/o/rp" "o" "rp"
    ["d"] (FS.dir []) (FS.dir [("d", FS.dir [])]) rfl rfl rfl rfl rfl

/-- C10: when the scratch directory holds exactly one top-level
directory entry alongside top-level file entries, extraction succeeds —
the layout check counts only directories — and the top-level files are
silently discarded: the destination receives exactly the root
directory's children, and a discarded file's name (when no root child
bears it) is absent from the destination. -/
theorem c10_toplevel_files_dropped (entries : List (String × FS)) (rn : String)
    (children : List (String × FS)) (dest : List String) (fs : FS)
    (hroots : entries.filter (fun e => isDirFS e.2) = [(rn, FS.dir children)])
    (hnd : (children.map Prod.fst).Nodup)
    (hdest : lookup fs dest = some (FS.dir [])) :
    ∃ fs2, extract_zip_to (ZipData.ok entries) dest fs = (Except.ok (), fs2) ∧
      lookup fs2 dest = some (FS.dir children) ∧
      ∀ n c, (n, FS.file c) ∈ entries → findEntry children n = none →
        lookup fs2 (dest ++ [n]) = none := by
  obtain ⟨fs2, hrun, hfin⟩ :=
    moveChildren_ok children dest fs [] hdest hnd (fun n _ => rfl)
  refine ⟨fs2, by simpa [extract_zip_to, hroots, childrenOf] using hrun,
    by simpa using hfin, ?_⟩
  intro n c _ hnone
  rw [lookup_append]
  simp only [hfin, List.nil_append, Option.bind_some]
  simp [lookup, hnone]

/-- Witness for C10: a root directory next to a top-level `README`
file; extraction succeeds and `README` never reaches the destination. -/
theorem c10_witness :
    ∃ fs2, extract_zip_to
        (ZipData.ok [("repo-main", FS.dir [("a", FS.file [1])]),
          ("README", FS.file [9])])
        ["d"] (FS.dir [("d", FS.dir [])]) = (Except.ok (), fs2) ∧
      lookup fs2 ["d"] = some (FS.dir [("a", FS.file [1])]) ∧
      ∀ n c, (n, FS.file c) ∈
          [("repo-main", FS.dir [("a", FS.file [1])]),
            ("README", FS.file [9])] →
        findEntry [("a", FS.file [1])] n = none →
        lookup fs2 (["d"] ++ [n]) = none :=
  c10_toplevel_files_dropped
    [("repo-main", FS.dir [("a", FS.file [1])]), ("README", FS.file [9])]
    "repo-main" [("a", FS.file [1])] ["d"] (FS.dir [("d", FS.dir [])])
    rfl (by decide) rfl

end PyGit
